import Mathlib

/-!
Shallow embedding of `S3-stat.py`, the bucket-size inventory tool.

Python numbers (CloudWatch averages, accumulated sizes) are modelled as `ℚ`;
timestamps as `ℤ`.  External calls (region lookup, metric queries) are
modelled as oracles passed in as arguments.  Python exceptions are modelled
by an explicit error type distinguishing `ClientError` (caught locally in
several places) from any other exception.
-/

/-- Exceptions relevant to the script: botocore `ClientError` versus any
other (non-client) exception. -/
inductive Exn where
  | clientError : Exn
  | otherError : Exn
deriving DecidableEq

/-- One CloudWatch metric datapoint: a timestamp and the `Average` statistic. -/
structure Datapoint where
  timestamp : ℤ
  average : ℚ
deriving DecidableEq

/-- The hardcoded list of storage types probed by `get_bucket_size`
(`S3-stat.py` lines 63-79). -/
def storage_types : List String :=
  [ "StandardStorage",
    "StandardIAStorage",
    "IntelligentTieringFAStorage",
    "IntelligentTieringIAStorage",
    "IntelligentTieringAAStorage",
    "IntelligentTieringAIAStorage",
    "IntelligentTieringDAAStorage",
    "OneZoneIAStorage",
    "ReducedRedundancyStorage",
    "GlacierInstantRetrievalStorage",
    "GlacierStorage",
    "DeepArchiveStorage",
    "GlacierStagingStorage",
    "GlacierObjectOverhead",
    "GlacierS3ObjectOverhead" ]

/-- Ordering used by `sorted(response['Datapoints'], key=..., reverse=True)`:
newer timestamps first (Python's sort is stable; `List.insertionSort` is the
unique stable sort for this relation). -/
def byTimestampDesc (a b : Datapoint) : Prop := b.timestamp ≤ a.timestamp

instance : DecidableRel byTimestampDesc := fun a b =>
  inferInstanceAs (Decidable (b.timestamp ≤ a.timestamp))

instance : IsTotal Datapoint byTimestampDesc :=
  ⟨fun a b => (le_total b.timestamp a.timestamp).imp id id⟩

instance : IsTrans Datapoint byTimestampDesc :=
  ⟨fun _ _ _ h h' => le_trans h' h⟩

/-- The contribution of one storage type's query response to the running
total (`S3-stat.py` lines 98-102): if there are datapoints, the `Average`
of the newest one; otherwise nothing is added. -/
def latestAverage (dps : List Datapoint) : ℚ :=
  match List.insertionSort byTimestampDesc dps with
  | [] => 0
  | d :: _ => d.average

/-- The probe loop of `get_bucket_size` (`S3-stat.py` lines 83-105), over an
oracle `query` giving each storage type's metric response.  Returns the list
of storage types actually queried together with the outcome: per-type
`ClientError`s are swallowed (`except ClientError: continue`), any other
exception escapes the loop. -/
def probeLoop (query : String → Except Exn (List Datapoint)) :
    List String → ℚ → List String × Except Exn ℚ
  | [], acc => ([], Except.ok acc)
  | t :: ts, acc =>
    match query t with
    | Except.ok dps =>
      let rest := probeLoop query ts (acc + latestAverage dps)
      (t :: rest.1, rest.2)
    | Except.error Exn.clientError =>
      let rest := probeLoop query ts acc
      (t :: rest.1, rest.2)
    | Except.error Exn.otherError => ([t], Except.error Exn.otherError)

/-- `get_bucket_size` (`S3-stat.py` lines 36-110): runs the probe loop; the
top-level `except Exception` turns any escaped exception into a result of 0. -/
def get_bucket_size (query : String → Except Exn (List Datapoint)) : ℚ :=
  match (probeLoop query storage_types 0).2 with
  | Except.ok v => v
  | Except.error _ => 0

/-- The storage types for which `get_bucket_size` issued a metric query. -/
def issuedQueries (query : String → Except Exn (List Datapoint)) : List String :=
  (probeLoop query storage_types 0).1

/-- The per-dimension contribution: zero on a failed query or on no
datapoints, otherwise the newest datapoint's average. -/
def contrib (query : String → Except Exn (List Datapoint)) (t : String) : ℚ :=
  match query t with
  | Except.ok dps => latestAverage dps
  | Except.error _ => 0

/-- Outcome of the external `get_bucket_location` call: a successful response
carrying the `LocationConstraint` field (possibly null), a `ClientError`, or
any other exception. -/
inductive LocResult where
  | found : Option String → LocResult
  | clientError : LocResult
  | otherError : LocResult
deriving DecidableEq

/-- `get_bucket_region` (`S3-stat.py` lines 13-33): null `LocationConstraint`
means `us-east-1`; a `ClientError` is caught and falls back to `us-east-1`;
any other exception propagates. -/
def get_bucket_region (resp : LocResult) : Except Exn String :=
  match resp with
  | LocResult.found none => Except.ok "us-east-1"
  | LocResult.found (some region) => Except.ok region
  | LocResult.clientError => Except.ok "us-east-1"
  | LocResult.otherError => Except.error Exn.otherError

/-- Two decimal digits, zero padded: the fractional part printed by
Python's `:.2f`.  The argument is the fraction scaled by 100 (< 100). -/
def twoFrac (m : ℕ) : String := String.mk [Nat.digitChar (m / 10), Nat.digitChar (m % 10)]

/-- Round to the nearest integer, ties to even: the rounding Python's
float formatting applies to exactly representable values. -/
def roundHalfEven (x : ℚ) : ℤ :=
  let f := ⌊x⌋
  if x - f < 1 / 2 then f
  else if 1 / 2 < x - f then f + 1
  else if f % 2 = 0 then f else f + 1

/-- Rendering of a non-negative rational by Python's `:.2f`. -/
def renderNN (x : ℚ) : String :=
  let n := (roundHalfEven (x * 100)).toNat
  toString (n / 100) ++ "." ++ twoFrac (n % 100)

/-- Rendering of `f-string` `:.2f`: sign, then the non-negative rendering. -/
def render2 (x : ℚ) : String :=
  if x < 0 then "-" ++ renderNN (-x) else renderNN x

/-- The unit labels iterated by `format_size` (`S3-stat.py` line 123). -/
def units : List String := ["B", "KB", "MB", "GB", "TB", "PB"]

/-- The `for unit in [...]` loop of `format_size`: return at the first unit
where the value is below 1024, otherwise divide by 1024 and advance; after
the list is exhausted the label is `EB`. -/
def format_size_loop (x : ℚ) : List String → String
  | [] => render2 x ++ " EB"
  | u :: us => if x < 1024 then render2 x ++ " " ++ u else format_size_loop (x / 1024) us

/-- `format_size` (`S3-stat.py` lines 113-127). -/
def format_size (x : ℚ) : String := format_size_loop x units

/-- One record of the `bucket_sizes` list built by `main`
(`S3-stat.py` lines 172-177). -/
structure BucketRecord where
  name : String
  size : ℚ
  region : String
  created : ℤ
deriving DecidableEq

/-- The running `total_size` accumulated by `main` (`S3-stat.py` lines 154,
178). -/
def grandTotal (rs : List BucketRecord) : ℚ :=
  rs.foldl (fun acc r => acc + r.size) 0

/-- One step of the per-region accumulation (`S3-stat.py` lines 202-208):
dict insertion order is kept, an existing region's count and size are
bumped, a new region is appended with count 1. -/
def bump : List (String × ℕ × ℚ) → String → ℚ → List (String × ℕ × ℚ)
  | [], region, s => [(region, 1, s)]
  | (k, c, t) :: rest, region, s =>
    if k = region then (k, c + 1, t + s) :: rest
    else (k, c, t) :: bump rest region s

/-- The `region_stats` dict built by `main` (`S3-stat.py` lines 202-208),
as an insertion-ordered association list. -/
def regionStats (rs : List BucketRecord) : List (String × ℕ × ℚ) :=
  rs.foldl (fun st r => bump st r.region r.size) []

/-- Association-list lookup, the dict access `region_stats[region]`. -/
def lookupStats : List (String × ℕ × ℚ) → String → Option (ℕ × ℚ)
  | [], _ => none
  | (k, v) :: rest, region => if k = region then some v else lookupStats rest region

/-- The region keys in the order emitted by `sorted(region_stats.keys())`
(`S3-stat.py` line 213). -/
def sortedRegionKeys (rs : List BucketRecord) : List String :=
  List.insertionSort (fun a b : String => a ≤ b) ((regionStats rs).map Prod.fst)

/-- The per-region rollups as emitted by `main` (`S3-stat.py` lines 213-218):
alphabetical region order, each with its count and summed size. -/
def regionRollups (rs : List BucketRecord) : List (String × ℕ × ℚ) :=
  (sortedRegionKeys rs).map (fun k => (k, (lookupStats (regionStats rs) k).getD (0, 0)))

/-- The number of bucket records in a given region. -/
def regionCount (k : String) (rs : List BucketRecord) : ℕ :=
  (rs.filter (fun r => decide (r.region = k))).length

/-- The summed size of the bucket records in a given region. -/
def regionSizeSum (k : String) (rs : List BucketRecord) : ℚ :=
  ((rs.filter (fun r => decide (r.region = k))).map (fun r => r.size)).sum

/-- Ordering used by `bucket_sizes.sort(key=lambda x: x['size'], reverse=True)`
(`S3-stat.py` line 190): larger sizes first.  Python's sort is stable and
`List.insertionSort` is the unique stable sort for this relation. -/
def bySizeDesc (a b : BucketRecord) : Prop := b.size ≤ a.size

instance : DecidableRel bySizeDesc := fun a b =>
  inferInstanceAs (Decidable (b.size ≤ a.size))

instance : IsTotal BucketRecord bySizeDesc :=
  ⟨fun a b => (le_total b.size a.size).imp id id⟩

instance : IsTrans BucketRecord bySizeDesc :=
  ⟨fun _ _ _ h h' => le_trans h' h⟩

/-- The size-descending ordering of the bucket records
(`S3-stat.py` line 190). -/
def sortedRecords (rs : List BucketRecord) : List BucketRecord :=
  List.insertionSort bySizeDesc rs

/-- Association-list lookup in the CloudWatch client cache, the test
`bucket_region in cloudwatch_clients`. -/
def lookupClient : List (String × ℕ) → String → Option ℕ
  | [], _ => none
  | (k, h) :: rest, region => if k = region then some h else lookupClient rest region

/-- The get-or-create client acquisition of `get_bucket_size`
(`S3-stat.py` lines 53-56).  Client handles are numbered by construction
order; the state is the cache plus the next fresh handle number. -/
def getClient (cache : List (String × ℕ)) (nextId : ℕ) (region : String) :
    ℕ × (List (String × ℕ) × ℕ) :=
  match lookupClient cache region with
  | some h => (h, (cache, nextId))
  | none => (nextId, (cache ++ [(region, nextId)], nextId + 1))

/-- The cache-state evolution of one bucket's processing in `main`'s loop. -/
def cacheStep (st : List (String × ℕ) × ℕ) (region : String) : List (String × ℕ) × ℕ :=
  (getClient st.1 st.2 region).2

/-- The cache state after sequentially processing buckets in the given
regions, starting from the empty dict created at `S3-stat.py` line 141. -/
def runRegions (regs : List String) : List (String × ℕ) × ℕ :=
  regs.foldl cacheStep ([], 0)

/-! ## Lemmas about the probe loop -/

lemma probeLoop_eq_of_no_otherError (query : String → Except Exn (List Datapoint))
    (ts : List String) :
    ∀ acc : ℚ, (∀ t ∈ ts, query t ≠ Except.error Exn.otherError) →
      probeLoop query ts acc = (ts, Except.ok (acc + (ts.map (contrib query)).sum)) := by
  induction ts with
  | nil => intro acc _; simp [probeLoop]
  | cons t ts ih =>
    intro acc h
    have ht := h t (List.mem_cons_self t ts)
    have hts : ∀ u ∈ ts, query u ≠ Except.error Exn.otherError :=
      fun u hu => h u (List.mem_cons_of_mem t hu)
    cases hq : query t with
    | ok dps =>
      simp only [probeLoop, hq]
      rw [ih _ hts]
      simp [contrib, hq, add_assoc]
    | error e =>
      cases e with
      | clientError =>
        simp only [probeLoop, hq]
        rw [ih _ hts]
        simp [contrib, hq]
      | otherError => exact absurd hq ht

/-! ## Claim theorems: probe set and bucket size resolver -/

/-- C1 (counterexample): the hardcoded storage-class probe set does not have
14 elements. -/
theorem storage_types_length_ne_14 : storage_types.length ≠ 14 := by decide

/-- C1 (amended): the storage-class probe set is a fixed ordered list of
exactly 15 dimension values, and the bucket size resolver issues one metric
query per element of this list, in order, for every bucket whose probe loop
is not aborted by a non-`ClientError` exception. -/
theorem storage_types_probe_queries :
    storage_types.length = 15 ∧
      ∀ query : String → Except Exn (List Datapoint),
        (∀ t ∈ storage_types, query t ≠ Except.error Exn.otherError) →
          issuedQueries query = storage_types := by
  refine ⟨by decide, fun query h => ?_⟩
  unfold issuedQueries
  rw [probeLoop_eq_of_no_otherError query storage_types 0 h]

/-- C1 (witness): on the oracle answering every query with no datapoints,
one query is issued per element of the probe set. -/
theorem storage_types_probe_queries_witness :
    issuedQueries (fun _ => Except.ok []) = storage_types :=
  storage_types_probe_queries.2 (fun _ => Except.ok []) (by intro t _; simp)

/-- C3: per-dimension failures (`ClientError`) and empty responses contribute
zero and the loop continues, so with no hard error the result is the sum of
the per-dimension contributions; an exception escaping the loop is converted
to a result of 0 at the top; and a bucket whose every query returns no
datapoints resolves to 0. -/
theorem get_bucket_size_error_handling :
    (∀ query : String → Except Exn (List Datapoint),
        (∀ t ∈ storage_types, query t ≠ Except.error Exn.otherError) →
          get_bucket_size query = (storage_types.map (contrib query)).sum) ∧
    (∀ (query : String → Except Exn (List Datapoint)) (e : Exn),
        (probeLoop query storage_types 0).2 = Except.error e →
          get_bucket_size query = 0) ∧
    (∀ query : String → Except Exn (List Datapoint),
        (∀ t ∈ storage_types, query t = Except.ok []) →
          get_bucket_size query = 0) := by
  have main : ∀ query : String → Except Exn (List Datapoint),
      (∀ t ∈ storage_types, query t ≠ Except.error Exn.otherError) →
        get_bucket_size query = (storage_types.map (contrib query)).sum := by
    intro query h
    unfold get_bucket_size
    rw [probeLoop_eq_of_no_otherError query storage_types 0 h]
    simp
  refine ⟨main, fun query e he => ?_, fun query h => ?_⟩
  · unfold get_bucket_size
    rw [he]
  · rw [main query (fun t ht => by rw [h t ht]; simp)]
    refine List.sum_eq_zero ?_
    intro x hx
    rcases List.mem_map.mp hx with ⟨t, ht, rfl⟩
    simp [contrib, h t ht, latestAverage]

/-- C3 (witness): a bucket whose every storage-class query returns no
datapoints resolves to size 0. -/
theorem get_bucket_size_error_handling_witness :
    get_bucket_size (fun _ => Except.ok []) = 0 :=
  get_bucket_size_error_handling.2.2 (fun _ => Except.ok []) (by intro t _; rfl)

/-! ## Claim theorems: region resolver -/

/-- C4 (counterexample): on a successful lookup reporting an empty (but
non-null) location constraint, `get_bucket_region` returns the empty string,
not the default region. -/
theorem get_bucket_region_empty_not_default :
    get_bucket_region (LocResult.found (some "")) ≠ Except.ok "us-east-1" := by
  simp [get_bucket_region]

/-- C4 (amended): a successful lookup reporting a null location constraint
resolves to the explicit default region `us-east-1`; any non-null constraint
(including the empty string) is returned unchanged. -/
theorem get_bucket_region_null_default :
    get_bucket_region (LocResult.found none) = Except.ok "us-east-1" ∧
      ∀ s : String, get_bucket_region (LocResult.found (some s)) = Except.ok s :=
  ⟨rfl, fun _ => rfl⟩

/-- C5 (counterexample): a lookup failure that is not a `ClientError`
propagates out of `get_bucket_region` instead of being turned into the
default-region fallback. -/
theorem get_bucket_region_otherError_raises :
    get_bucket_region LocResult.otherError = Except.error Exn.otherError := rfl

/-- C5 (amended): a `ClientError` during the lookup is absorbed into the
default-region fallback, but any other exception propagates past
`get_bucket_region` to the caller. -/
theorem get_bucket_region_fallback :
    get_bucket_region LocResult.clientError = Except.ok "us-east-1" ∧
      get_bucket_region LocResult.otherError = Except.error Exn.otherError :=
  ⟨rfl, rfl⟩

/-! ## Claim theorems: size formatter -/

/-- C6: `format_size` divides by 1024 while the value is at least 1024,
advancing through the labels B, KB, MB, GB, TB, PB, falling through to the
terminal label EB, always rendering two decimal places; with the four
concrete values of the spec (and the EB fall-through for good measure). -/
theorem format_size_correct :
    format_size 0 = "0.00 B" ∧ format_size 1024 = "1.00 KB" ∧
    format_size 1536 = "1.50 KB" ∧ format_size (1024 ^ 5) = "1.00 PB" ∧
    format_size (1024 ^ 6) = "1.00 EB" ∧
    (∀ x : ℚ,
      format_size x =
        if x < 1024 then render2 x ++ " " ++ "B"
        else if x < 1024 ^ 2 then render2 (x / 1024) ++ " " ++ "KB"
        else if x < 1024 ^ 3 then render2 (x / 1024 ^ 2) ++ " " ++ "MB"
        else if x < 1024 ^ 4 then render2 (x / 1024 ^ 3) ++ " " ++ "GB"
        else if x < 1024 ^ 5 then render2 (x / 1024 ^ 4) ++ " " ++ "TB"
        else if x < 1024 ^ 6 then render2 (x / 1024 ^ 5) ++ " " ++ "PB"
        else render2 (x / 1024 ^ 6) ++ " EB") ∧
    (∀ x : ℚ, ∃ p : String, ∃ m : ℕ,
      render2 x = p ++ "." ++ twoFrac m ∧ (twoFrac m).length = 2) := by
  refine ⟨?_, ?_, ?_, ?_, ?_, ?_, ?_⟩
  · norm_num [format_size, format_size_loop, units, render2, renderNN, roundHalfEven, twoFrac]
    decide
  · norm_num [format_size, format_size_loop, units, render2, renderNN, roundHalfEven, twoFrac]
    decide
  · norm_num [format_size, format_size_loop, units, render2, renderNN, roundHalfEven, twoFrac]
    decide
  · norm_num [format_size, format_size_loop, units, render2, renderNN, roundHalfEven, twoFrac]
    decide
  · norm_num [format_size, format_size_loop, units, render2, renderNN, roundHalfEven, twoFrac]
    decide
  · intro x
    have h : (0 : ℚ) < 1024 := by norm_num
    simp only [format_size, units, format_size_loop]
    simp only [div_lt_iff₀ h]
    simp only [div_div]
    norm_num
  · intro x
    unfold render2 renderNN
    by_cases hx : x < 0
    · rw [if_pos hx]
      exact ⟨"-" ++ toString ((roundHalfEven (-x * 100)).toNat / 100),
        (roundHalfEven (-x * 100)).toNat % 100, by simp [String.append_assoc], rfl⟩
    · rw [if_neg hx]
      exact ⟨toString ((roundHalfEven (x * 100)).toNat / 100),
        (roundHalfEven (x * 100)).toNat % 100, rfl, rfl⟩

/-- C10: on a negative input `format_size` performs no division, returns at
the first unit label `B`, and renders the value (sign followed by the
two-decimal rendering of its magnitude). -/
theorem format_size_neg (x : ℚ) (hx : x < 0) :
    format_size x = render2 x ++ " " ++ "B" ∧ render2 x = "-" ++ renderNN (-x) := by
  constructor
  · have hlt : x < 1024 := lt_trans hx (by norm_num)
    simp only [format_size, units, format_size_loop, if_pos hlt]
  · unfold render2
    rw [if_pos hx]

/-- C10 (witness): at input -5 the formatter stays at unit B and renders
"-5.00 B". -/
theorem format_size_neg_witness :
    (format_size (-5) = render2 (-5) ++ " " ++ "B" ∧
      render2 (-5) = "-" ++ renderNN (-(-5))) ∧
      format_size (-5) = "-5.00 B" := by
  refine ⟨format_size_neg (-5) (by norm_num), ?_⟩
  norm_num [format_size, format_size_loop, units, render2, renderNN, roundHalfEven, twoFrac]
  decide

/-! ## Claim theorems: size-descending sort -/

lemma filter_orderedInsert_size (a : BucketRecord) (l : List BucketRecord) (k : ℚ) :
    (List.orderedInsert bySizeDesc a l).filter (fun x => decide (x.size = k)) =
      if a.size = k then a :: l.filter (fun x => decide (x.size = k))
      else l.filter (fun x => decide (x.size = k)) := by
  induction l with
  | nil => by_cases h : a.size = k <;> simp [List.orderedInsert, h]
  | cons b l ih =>
    by_cases hr : bySizeDesc a b
    · rw [List.orderedInsert, if_pos hr]
      by_cases h : a.size = k <;> simp [List.filter_cons, h]
    · rw [List.orderedInsert, if_neg hr]
      by_cases h : a.size = k
      · have hb : ¬ b.size = k := by
          intro hbk
          exact hr (le_of_eq (h ▸ hbk))
        simp [List.filter_cons, hb, ih, h]
      · simp [List.filter_cons, ih, h]

lemma filter_sortedRecords (rs : List BucketRecord) (k : ℚ) :
    (sortedRecords rs).filter (fun x => decide (x.size = k)) =
      rs.filter (fun x => decide (x.size = k)) := by
  unfold sortedRecords
  induction rs with
  | nil => rfl
  | cons a rs ih =>
    rw [List.insertionSort, filter_orderedInsert_size]
    by_cases h : a.size = k <;> simp [List.filter_cons, h, ih]

/-- C7: the sorted bucket list is a permutation of the input, ordered by
size descending (every earlier record's size is at least every later one's),
and the sort is stable: for every size value, the records of that size
appear in their original input order. -/
theorem sortedRecords_correct :
    ∀ rs : List BucketRecord,
      (sortedRecords rs).Perm rs ∧
      List.Sorted bySizeDesc (sortedRecords rs) ∧
      ∀ k : ℚ, (sortedRecords rs).filter (fun x => decide (x.size = k)) =
        rs.filter (fun x => decide (x.size = k)) :=
  fun rs => ⟨List.perm_insertionSort bySizeDesc rs,
    List.sorted_insertionSort bySizeDesc rs, fun k => filter_sortedRecords rs k⟩

/-! ## Lemmas about the per-region accumulation -/

lemma foldl_add_size (rs : List BucketRecord) :
    ∀ acc : ℚ, rs.foldl (fun a r => a + r.size) acc = acc + (rs.map (fun r => r.size)).sum := by
  induction rs with
  | nil => intro acc; simp
  | cons r rs ih => intro acc; simp [ih, add_assoc]

lemma bump_keys (st : List (String × ℕ × ℚ)) (reg : String) (s : ℚ) :
    (bump st reg s).map Prod.fst =
      if reg ∈ st.map Prod.fst then st.map Prod.fst else st.map Prod.fst ++ [reg] := by
  induction st with
  | nil => simp [bump]
  | cons e st ih =>
    obtain ⟨k, c, t⟩ := e
    by_cases h : k = reg
    · simp [bump, h]
    · simp only [bump, if_neg h, List.map_cons, ih]
      by_cases hm : reg ∈ st.map Prod.fst
      · rw [if_pos hm, if_pos (List.mem_cons_of_mem _ hm)]
      · rw [if_neg hm, if_neg ?_]
        · simp
        · intro hmem
          rcases List.mem_cons.mp hmem with h1 | h2
          · exact h h1.symm
          · exact hm h2

lemma lookupStats_bump_self (st : List (String × ℕ × ℚ)) (reg : String) (s : ℚ) :
    lookupStats (bump st reg s) reg =
      match lookupStats st reg with
      | some ct => some (ct.1 + 1, ct.2 + s)
      | none => some (1, s) := by
  induction st with
  | nil => simp [bump, lookupStats]
  | cons e st ih =>
    obtain ⟨k, c, t⟩ := e
    by_cases h : k = reg
    · simp [bump, lookupStats, h]
    · simp [bump, lookupStats, h, ih]

lemma lookupStats_bump_ne (st : List (String × ℕ × ℚ)) (reg : String) (s : ℚ)
    (k : String) (h : k ≠ reg) :
    lookupStats (bump st reg s) k = lookupStats st k := by
  induction st with
  | nil => simp [bump, lookupStats, Ne.symm h]
  | cons e st ih =>
    obtain ⟨k', c, t⟩ := e
    by_cases h' : k' = reg
    · simp [bump, lookupStats, h', Ne.symm h]
    · simp [bump, lookupStats, h', ih]

lemma lookupStats_isSome_iff (st : List (String × ℕ × ℚ)) (k : String) :
    (lookupStats st k).isSome ↔ k ∈ st.map Prod.fst := by
  induction st with
  | nil => simp [lookupStats]
  | cons e st ih =>
    obtain ⟨k', c, t⟩ := e
    by_cases h : k' = k
    · simp [lookupStats, h]
    · have h2 : k ≠ k' := fun hh => h hh.symm
      simp [lookupStats, h, h2, ih]

lemma regionCount_append (k : String) (rs : List BucketRecord) (r : BucketRecord) :
    regionCount k (rs ++ [r]) = regionCount k rs + if r.region = k then 1 else 0 := by
  unfold regionCount
  rw [List.filter_append, List.length_append]
  by_cases h : r.region = k <;> simp [h]

lemma regionSizeSum_append (k : String) (rs : List BucketRecord) (r : BucketRecord) :
    regionSizeSum k (rs ++ [r]) = regionSizeSum k rs + if r.region = k then r.size else 0 := by
  unfold regionSizeSum
  rw [List.filter_append, List.map_append, List.sum_append]
  by_cases h : r.region = k <;> simp [h]

lemma regionCount_eq_zero (k : String) (rs : List BucketRecord)
    (h : k ∉ rs.map (fun r => r.region)) : regionCount k rs = 0 := by
  unfold regionCount
  rw [List.length_eq_zero]
  refine List.filter_eq_nil_iff.mpr ?_
  intro r hr hk
  exact h (List.mem_map.mpr ⟨r, hr, of_decide_eq_true hk⟩)

lemma regionSizeSum_eq_zero (k : String) (rs : List BucketRecord)
    (h : k ∉ rs.map (fun r => r.region)) : regionSizeSum k rs = 0 := by
  unfold regionSizeSum
  have : rs.filter (fun r => decide (r.region = k)) = [] := by
    refine List.filter_eq_nil_iff.mpr ?_
    intro r hr hk
    exact h (List.mem_map.mpr ⟨r, hr, of_decide_eq_true hk⟩)
  rw [this]
  simp

lemma regionStats_go (rs : List BucketRecord) :
    ∀ (st : List (String × ℕ × ℚ)) (R : List BucketRecord),
      (st.map Prod.fst).Nodup →
      (∀ k, lookupStats st k =
        if k ∈ R.map (fun x => x.region) then some (regionCount k R, regionSizeSum k R)
        else none) →
      ((rs.foldl (fun acc x => bump acc x.region x.size) st).map Prod.fst).Nodup ∧
        ∀ k, lookupStats (rs.foldl (fun acc x => bump acc x.region x.size) st) k =
          if k ∈ (R ++ rs).map (fun x => x.region)
          then some (regionCount k (R ++ rs), regionSizeSum k (R ++ rs)) else none := by
  induction rs with
  | nil =>
    intro st R h1 h2
    simp only [List.foldl_nil, List.append_nil]
    exact ⟨h1, h2⟩
  | cons r rs ih =>
    intro st R h1 h2
    have hmemkeys : ∀ k, k ∈ st.map Prod.fst ↔ k ∈ R.map (fun x => x.region) := by
      intro k
      rw [← lookupStats_isSome_iff, h2 k]
      by_cases hm : k ∈ R.map (fun x => x.region) <;> simp [hm]
    have hkeys : ((bump st r.region r.size).map Prod.fst).Nodup := by
      rw [bump_keys]
      by_cases hm : r.region ∈ st.map Prod.fst
      · rw [if_pos hm]; exact h1
      · rw [if_neg hm]
        simp [List.nodup_append, h1, hm]
    have hlook : ∀ k, lookupStats (bump st r.region r.size) k =
        if k ∈ (R ++ [r]).map (fun x => x.region)
        then some (regionCount k (R ++ [r]), regionSizeSum k (R ++ [r])) else none := by
      intro k
      by_cases hk : k = r.region
      · subst hk
        rw [lookupStats_bump_self, h2 r.region]
        have hmem' : r.region ∈ (R ++ [r]).map (fun x => x.region) := by simp
        rw [if_pos hmem']
        by_cases hm : r.region ∈ R.map (fun x => x.region)
        · rw [if_pos hm]
          simp [regionCount_append, regionSizeSum_append]
        · rw [if_neg hm]
          simp [regionCount_append, regionSizeSum_append,
            regionCount_eq_zero _ _ hm, regionSizeSum_eq_zero _ _ hm]
      · rw [lookupStats_bump_ne _ _ _ _ hk, h2 k]
        have hiff : (k ∈ (R ++ [r]).map (fun x => x.region)) ↔
            (k ∈ R.map (fun x => x.region)) := by
          simp [List.mem_append, hk]
        by_cases hm : k ∈ R.map (fun x => x.region)
        · rw [if_pos hm, if_pos (hiff.mpr hm)]
          simp [regionCount_append, regionSizeSum_append, Ne.symm hk]
        · rw [if_neg hm, if_neg (fun hh => hm (hiff.mp hh))]
    have hrec := ih (bump st r.region r.size) (R ++ [r]) hkeys hlook
    simpa [List.foldl_cons] using hrec

lemma regionStats_spec (rs : List BucketRecord) :
    ((regionStats rs).map Prod.fst).Nodup ∧
      ∀ k, lookupStats (regionStats rs) k =
        if k ∈ rs.map (fun x => x.region)
        then some (regionCount k rs, regionSizeSum k rs) else none := by
  have h := regionStats_go rs [] []
    (by simp) (by intro k; simp [lookupStats, regionCount, regionSizeSum])
  simpa [regionStats] using h

lemma regionStats_entries_eq (st : List (String × ℕ × ℚ)) :
    (st.map Prod.fst).Nodup →
      (st.map Prod.fst).map (fun k => (lookupStats st k).getD (0, 0)) =
        st.map (fun e => e.2) := by
  induction st with
  | nil => intro _; rfl
  | cons e st ih =>
    intro h
    obtain ⟨k, v⟩ := e
    have hk : k ∉ st.map Prod.fst := (List.nodup_cons.mp h).1
    have hrest := (List.nodup_cons.mp h).2
    rw [List.map_cons, List.map_cons, List.map_cons]
    congr 1
    · simp [lookupStats]
    · rw [← ih hrest]
      refine List.map_congr_left ?_
      intro a ha
      have hne : ¬ k = a := fun hh => hk (hh ▸ ha)
      simp [lookupStats, hne]

lemma bump_total (st : List (String × ℕ × ℚ)) (reg : String) (s : ℚ) :
    ((bump st reg s).map (fun e => e.2.2)).sum = (st.map (fun e => e.2.2)).sum + s := by
  induction st with
  | nil => simp [bump]
  | cons e st ih =>
    obtain ⟨k, c, t⟩ := e
    by_cases h : k = reg
    · simp only [bump, if_pos h, List.map_cons, List.sum_cons]
      ring
    · simp only [bump, if_neg h, List.map_cons, List.sum_cons, ih]
      ring

lemma regionStats_total_go (rs : List BucketRecord) :
    ∀ st : List (String × ℕ × ℚ),
      ((rs.foldl (fun acc x => bump acc x.region x.size) st).map (fun e => e.2.2)).sum =
        (st.map (fun e => e.2.2)).sum + (rs.map (fun r => r.size)).sum := by
  induction rs with
  | nil => intro st; simp
  | cons r rs ih =>
    intro st
    simp only [List.foldl_cons, ih, bump_total, List.map_cons, List.sum_cons]
    ring

/-! ## Claim theorems: rollup aggregation -/

instance : IsTotal String (fun a b : String => a ≤ b) := ⟨fun a b => le_total a b⟩

instance : IsTrans String (fun a b : String => a ≤ b) := ⟨fun _ _ _ h h' => le_trans h h'⟩

/-- C2: the accumulated grand total equals the sum of all bucket records'
sizes, and also equals the sum over the emitted per-region rollups of their
total sizes. -/
theorem grandTotal_correct (rs : List BucketRecord) :
    grandTotal rs = (rs.map (fun r => r.size)).sum ∧
      grandTotal rs = ((regionRollups rs).map (fun e => e.2.2)).sum := by
  have h1 : grandTotal rs = (rs.map (fun r => r.size)).sum := by
    unfold grandTotal
    rw [foldl_add_size]
    simp
  refine ⟨h1, ?_⟩
  have hnodup := (regionStats_spec rs).1
  have hperm : List.Perm (sortedRegionKeys rs) ((regionStats rs).map Prod.fst) :=
    List.perm_insertionSort _ _
  have hmapperm : List.Perm ((regionRollups rs).map (fun e => e.2.2))
      (((regionStats rs).map Prod.fst).map
        (fun k => ((lookupStats (regionStats rs) k).getD (0, 0)).2)) := by
    unfold regionRollups
    rw [List.map_map]
    exact hperm.map _
  rw [hmapperm.sum_eq, List.map_map]
  simp only [Function.comp_def]
  have h2 := congrArg (List.map (fun p : ℕ × ℚ => p.2))
    (regionStats_entries_eq (regionStats rs) hnodup)
  rw [List.map_map, List.map_map] at h2
  simp only [Function.comp_def] at h2
  rw [h2, List.map_map]
  simp only [Function.comp_def]
  unfold regionStats
  rw [regionStats_total_go rs []]
  simpa using h1

/-- C8: the emitted region rollups have no duplicate region entries, their
region keys are in alphabetical order and are exactly the regions of the
bucket records, and each rollup's count and total are the number and summed
size of that region's records. -/
theorem regionRollups_correct (rs : List BucketRecord) :
    ((regionRollups rs).map Prod.fst).Nodup ∧
      List.Sorted (fun a b : String => a ≤ b) ((regionRollups rs).map Prod.fst) ∧
      (∀ k, k ∈ (regionRollups rs).map Prod.fst ↔ k ∈ rs.map (fun x => x.region)) ∧
      ∀ e ∈ regionRollups rs, e.2.1 = regionCount e.1 rs ∧ e.2.2 = regionSizeSum e.1 rs := by
  obtain ⟨hnodup, hlook⟩ := regionStats_spec rs
  have hkeys : (regionRollups rs).map Prod.fst = sortedRegionKeys rs := by
    unfold regionRollups
    rw [List.map_map]
    exact (List.map_congr_left (fun a _ => rfl)).trans (List.map_id _)
  have hperm : List.Perm (sortedRegionKeys rs) ((regionStats rs).map Prod.fst) :=
    List.perm_insertionSort _ _
  refine ⟨?_, ?_, ?_, ?_⟩
  · rw [hkeys]
    exact hperm.nodup_iff.mpr hnodup
  · rw [hkeys]
    exact List.sorted_insertionSort _ _
  · intro k
    rw [hkeys, hperm.mem_iff, ← lookupStats_isSome_iff, hlook k]
    by_cases hm : k ∈ rs.map (fun x => x.region) <;> simp [hm]
  · intro e he
    unfold regionRollups at he
    rcases List.mem_map.mp he with ⟨k, hk, rfl⟩
    have hkmem : k ∈ (regionStats rs).map Prod.fst := hperm.mem_iff.mp hk
    have hsome := (lookupStats_isSome_iff _ k).mpr hkmem
    have hmem : k ∈ rs.map (fun x => x.region) := by
      by_contra hm
      rw [hlook k, if_neg hm] at hsome
      simp at hsome
    rw [hlook k, if_pos hmem]
    simp

/-! ## Claim theorems: regional client cache -/

lemma lookupClient_append (c1 c2 : List (String × ℕ)) (k : String) :
    lookupClient (c1 ++ c2) k =
      match lookupClient c1 k with
      | some h => some h
      | none => lookupClient c2 k := by
  induction c1 with
  | nil => simp [lookupClient]
  | cons e c1 ih =>
    obtain ⟨k', v⟩ := e
    by_cases h : k' = k <;> simp [lookupClient, h, ih]

lemma lookupClient_isSome_iff (c : List (String × ℕ)) (k : String) :
    (lookupClient c k).isSome ↔ k ∈ c.map Prod.fst := by
  induction c with
  | nil => simp [lookupClient]
  | cons e c ih =>
    obtain ⟨k', v⟩ := e
    by_cases h : k' = k
    · simp [lookupClient, h]
    · have h2 : k ≠ k' := fun hh => h hh.symm
      simp [lookupClient, h, h2, ih]

lemma runRegions_go (regs : List String) :
    ∀ (st : List (String × ℕ) × ℕ) (R : List String),
      (st.1.map Prod.fst).Nodup →
      (∀ k, (lookupClient st.1 k).isSome ↔ k ∈ R) →
      st.2 = st.1.length →
      ((regs.foldl cacheStep st).1.map Prod.fst).Nodup ∧
        (∀ k, (lookupClient (regs.foldl cacheStep st).1 k).isSome ↔ k ∈ R ++ regs) ∧
        (regs.foldl cacheStep st).2 = (regs.foldl cacheStep st).1.length := by
  induction regs with
  | nil =>
    intro st R h1 h2 h3
    simp only [List.foldl_nil, List.append_nil]
    exact ⟨h1, h2, h3⟩
  | cons r regs ih =>
    intro st R h1 h2 h3
    simp only [List.foldl_cons]
    cases hc : lookupClient st.1 r with
    | some h =>
      have hstep : cacheStep st r = st := by
        unfold cacheStep getClient
        rw [hc]
      rw [hstep]
      have h2' : ∀ k, (lookupClient st.1 k).isSome ↔ k ∈ R ++ [r] := by
        intro k
        rw [h2 k]
        constructor
        · intro hk
          exact List.mem_append_left _ hk
        · intro hk
          rcases List.mem_append.mp hk with hk | hk
          · exact hk
          · rcases List.mem_singleton.mp hk with rfl
            exact (h2 k).mp (by rw [hc]; rfl)
      have hrec := ih st (R ++ [r]) h1 h2' h3
      simpa using hrec
    | none =>
      have hstep : cacheStep st r = (st.1 ++ [(r, st.2)], st.2 + 1) := by
        unfold cacheStep getClient
        rw [hc]
      rw [hstep]
      have hnotmem : r ∉ st.1.map Prod.fst := by
        rw [← lookupClient_isSome_iff, hc]
        simp
      have h1' : ((st.1 ++ [(r, st.2)]).map Prod.fst).Nodup := by
        rw [List.map_append]
        simp [List.nodup_append, h1, hnotmem]
      have h2' : ∀ k, (lookupClient (st.1 ++ [(r, st.2)]) k).isSome ↔ k ∈ R ++ [r] := by
        intro k
        rw [lookupClient_append]
        have hmemR := h2 k
        by_cases hk : k = r
        · subst hk
          rw [hc]
          simp [lookupClient]
        · cases hl : lookupClient st.1 k with
          | some v =>
            rw [hl] at hmemR
            simp at hmemR
            simp [hmemR]
          | none =>
            rw [hl] at hmemR
            simp at hmemR
            have hrk : ¬ r = k := fun hh => hk hh.symm
            simp [lookupClient, hmemR, hk, hrk]
      have h3' : (st.1 ++ [(r, st.2)], st.2 + 1).2 = (st.1 ++ [(r, st.2)], st.2 + 1).1.length := by
        simp [h3]
      have hrec := ih _ (R ++ [r]) h1' h2' h3'
      simpa using hrec

/-- C9: the client cache is idempotent and lazy.  Acquiring a client for a
region a second time returns the same handle and leaves the cache state
unchanged (so at most one client is ever constructed per region: the cache
keys stay duplicate-free and the construction counter equals the cache
size), and a client exists for a region exactly when some processed bucket
was in that region — no client is constructed before its region is first
requested. -/
theorem clientCache_correct :
    (∀ (cache : List (String × ℕ)) (nextId : ℕ) (region : String),
      getClient (getClient cache nextId region).2.1 (getClient cache nextId region).2.2 region =
        getClient cache nextId region) ∧
    (∀ (regs : List String) (region : String),
      (lookupClient (runRegions regs).1 region).isSome ↔ region ∈ regs) ∧
    (∀ regs : List String, ((runRegions regs).1.map Prod.fst).Nodup) ∧
    (∀ regs : List String, (runRegions regs).2 = (runRegions regs).1.length) := by
  have hgo : ∀ regs : List String,
      ((runRegions regs).1.map Prod.fst).Nodup ∧
        (∀ k, (lookupClient (runRegions regs).1 k).isSome ↔ k ∈ ([] : List String) ++ regs) ∧
        (runRegions regs).2 = (runRegions regs).1.length := by
    intro regs
    exact runRegions_go regs ([], 0) [] (by simp) (by intro k; simp [lookupClient]) rfl
  refine ⟨?_, ?_, ?_, ?_⟩
  · intro cache nextId region
    cases hc : lookupClient cache region with
    | some h => simp [getClient, hc]
    | none => simp [getClient, hc, lookupClient_append, lookupClient]
  · intro regs region
    exact ((hgo regs).2.1 region).trans (by simp)
  · intro regs
    exact (hgo regs).1
  · intro regs
    exact (hgo regs).2.2

/-- C8 (witness): for a single bucket of size 1 in region "r", the rollup
entry ("r", 1, 1) is emitted and its count and total match the records. -/
theorem regionRollups_correct_witness :
    (("r", 1, (1 : ℚ)) ∈ regionRollups [⟨"b", 1, "r", 0⟩]) ∧
      (("r", 1, (1 : ℚ)).2.1 = regionCount ("r", 1, (1 : ℚ)).1 [⟨"b", 1, "r", 0⟩] ∧
        ("r", 1, (1 : ℚ)).2.2 = regionSizeSum ("r", 1, (1 : ℚ)).1 [⟨"b", 1, "r", 0⟩]) :=
  have hmem : ("r", 1, (1 : ℚ)) ∈ regionRollups [⟨"b", 1, "r", 0⟩] := by
    simp [regionRollups, sortedRegionKeys, regionStats, bump, lookupStats,
      List.insertionSort, List.orderedInsert]
  ⟨hmem, (regionRollups_correct [⟨"b", 1, "r", 0⟩]).2.2.2 _ hmem⟩
